import Mathlib

set_option maxRecDepth 1000000

/-!
Shallow embedding of the voice-transcription core (speech segmentation,
transcription worker loop, output dispatch, dictation-text pipeline,
audio level meter) together with proofs about the claims of the design
specification.  Times and levels are modelled as rationals, text as
`List Char`, and the stateful Python objects as explicit state records.
-/

namespace VoiceTranscription

/-- Error categories, from `src/utils/error_handler.py` (`ErrorCategory`). -/
inductive ErrCategory where
  | audioDevice
  | transcription
  | shortcut
  | output
  | config
  | general
deriving DecidableEq

/-! ### Speech segmentation

Embedding of the hangover state machine inlined in
`TranscriptionController._transcription_thread` (`src/gui/main_window.py`,
lines 262-296): local variables `hangover_counter`, `last_speech_time`,
`speech_detected`, updated once per audio frame from the VAD boolean and
the wall-clock time `current_time` (milliseconds). -/

structure SegState where
  hangoverCounter : ℚ
  lastSpeechTime : ℚ
  speechDetected : Bool
deriving DecidableEq

/-- Initial segmentation state: `hangover_counter = 0`, `silence_time = 0`,
`last_speech_time = 0`, `speech_detected = False`. -/
def segInit : SegState :=
  { hangoverCounter := 0, lastSpeechTime := 0, speechDetected := false }

/-- One frame of the segmentation logic.  Mirrors the
`if is_speech: ... elif speech_detected: ...` block: a speech frame refreshes
the budget and the last speech time; a silence frame while speech is active
decrements the budget by the 20 ms frame duration and clears
`speech_detected` exactly when both the decremented budget is `<= 0` and
`current_time - last_speech_time > hangover_timeout_ms`. -/
def segStep (timeout : ℚ) (s : SegState) (isSpeech : Bool) (now : ℚ) : SegState :=
  if isSpeech then
    { hangoverCounter := timeout, lastSpeechTime := now, speechDetected := true }
  else if s.speechDetected then
    if s.hangoverCounter - 20 ≤ 0 ∧ now - s.lastSpeechTime > timeout then
      { s with hangoverCounter := s.hangoverCounter - 20, speechDetected := false }
    else
      { s with hangoverCounter := s.hangoverCounter - 20 }
  else s

/-- Run the segmenter over a sequence of frames, each a VAD boolean paired
with its wall-clock arrival time. -/
def segRun (timeout : ℚ) (frames : List (Bool × ℚ)) : SegState :=
  frames.foldl (fun s f => segStep timeout s f.1 f.2) segInit

/-- The "speech is active for processing" predicate of line 299:
`speech_detected or hangover_counter > 0`. -/
def segActive (s : SegState) : Prop :=
  s.speechDetected = true ∨ s.hangoverCounter > 0

/-- Budget invariant: whenever `speech_detected` is false the hangover
budget is already exhausted. -/
def segCounterInv (s : SegState) : Prop :=
  s.speechDetected = false → s.hangoverCounter ≤ 0

/-! ### Transcription worker loop

Embedding of the control flow of
`TranscriptionController._transcription_thread` (lines 259-335): a single
`try` block wraps the whole `while not self.stop_event.is_set() and
self.audio_stream and self.audio_stream.is_active():` loop; the `except`
clause routes the exception through
`error_recovery.handle_error(ErrorCategory.TRANSCRIPTION, ...)` and emits
the error; the `finally` clause clears `is_transcribing`.  Each loop
iteration is abstracted by the environment it observes: whether the stop
event is set, whether the audio source reports active, and whether the
iteration body raises. -/

structure IterEnv where
  stopSet : Bool
  sourceActive : Bool
  raises : Bool
deriving DecidableEq

inductive ExitReason where
  | stopped
  | sourceInactive
  | raised
  | envExhausted
deriving DecidableEq

/-- Run of the `while` loop: returns the number of iterations that ran to
completion and the reason the loop ended.  An iteration whose body raises
ends the loop at once (the `except` handler sits outside the `while`). -/
def loopRun : List IterEnv → Nat × ExitReason
  | [] => (0, ExitReason.envExhausted)
  | e :: rest =>
    if e.stopSet then (0, ExitReason.stopped)
    else if !e.sourceActive then (0, ExitReason.sourceInactive)
    else if e.raises then (0, ExitReason.raised)
    else
      let r := loopRun rest
      (r.1 + 1, r.2)

structure ThreadResult where
  completed : Nat
  exit : ExitReason
  recoveryCategories : List ErrCategory
  isTranscribing : Bool
deriving DecidableEq

/-- The whole thread body: runs the loop; a raised exception is handled once
with category `TRANSCRIPTION`; `finally` sets `is_transcribing = False`. -/
def transcriptionThread (env : List IterEnv) : ThreadResult :=
  let r := loopRun env
  { completed := r.1
    exit := r.2
    recoveryCategories :=
      if r.2 = ExitReason.raised then [ErrCategory.transcription] else []
    isTranscribing := false }

/-- An iteration environment that lets the loop body run and complete. -/
def iterNormal (e : IterEnv) : Bool :=
  !e.stopSet && e.sourceActive && !e.raises

/-! ### Output dispatch

Embedding of `TranscriptionController._output_text` (lines 337-399).  Both
configured sinks share the same control flow: attempt the dispatch; on
failure call `error_recovery.handle_error(ErrorCategory.OUTPUT, ...)`; if
the returned details report `recovery_success` the method calls itself
recursively (`self._output_text(text)`), otherwise it emits
`output_error_signal`.  Each attempt is abstracted by the pair of outcomes
it observes: whether the dispatch call succeeds and whether recovery
reports success. -/

structure DispatchEnv where
  dispatchOk : Bool
  recoveryOk : Bool
deriving DecidableEq

inductive OutputOutcome where
  | delivered
  | surfaced
  | envExhausted
deriving DecidableEq

/-- Run of `_output_text` against a (finite) schedule of attempt outcomes:
returns the number of dispatch attempts made and how the call chain ended
(`envExhausted` only when the schedule runs out mid-recursion). -/
def outputTextRun : List DispatchEnv → Nat × OutputOutcome
  | [] => (0, OutputOutcome.envExhausted)
  | e :: rest =>
    if e.dispatchOk then (1, OutputOutcome.delivered)
    else if e.recoveryOk then
      let r := outputTextRun rest
      (r.1 + 1, r.2)
    else (1, OutputOutcome.surfaced)

/-! ### Dictation-text pipeline

Embedding of `EnhancedCommandProcessor`
(`src/utils/enhanced_command_processor.py`).  Strings are `List Char`.
The compiled pattern `\b(p1|p2|...)\b` is represented by the ordered list
of phrases of the alternation; matching replays Python `finditer`
semantics: scan left to right, at each position try the alternatives in
order (each with its word-boundary requirements), take the first that
fits, and continue after the match. -/

/-- Python `\s` for the ASCII inputs of this repository. -/
def pyIsSpace (c : Char) : Bool :=
  c == ' ' || c == '\t' || c == '\n' || c == '\r' || c == '\x0b' || c == '\x0c'

/-- Python `\w` (ASCII fragment: letters, digits, underscore). -/
def isWordChar (c : Char) : Bool :=
  c.isAlpha || c.isDigit || c == '_'

def wordish : Option Char → Bool
  | Option.none => false
  | Option.some c => isWordChar c

/-- `\b` holds between two (possibly absent) neighbouring characters when
exactly one side is a word character. -/
def isBoundary (a b : Option Char) : Bool :=
  wordish a != wordish b

/-- Does the alternative `ph` of the compiled pattern match at the position
whose preceding character is `prev` and whose remaining text is `suffix`?
Checks the leading `\b`, the literal phrase, and the trailing `\b`. -/
def phraseMatchesAt (prev : Option Char) (suffix : List Char) (ph : List Char) : Bool :=
  !ph.isEmpty && ph.isPrefixOf suffix && isBoundary prev ph.head? &&
    isBoundary ph.getLast? ((suffix.drop ph.length).head?)

/-- All non-overlapping matches of the compiled pattern, scanning left to
right, trying phrases in alternation order at each position; returns
(start position, matched phrase) pairs in increasing position order.  The
`fuel` argument (initially the text length) only forces structural
recursion: every step consumes at least one character, so fuel never runs
out on a real scan. -/
def findMatchesAux (phrases : List (List Char)) :
    Nat → Option Char → Nat → List Char → List (Nat × List Char)
  | 0, _, _, _ => []
  | _ + 1, _, _, [] => []
  | fuel + 1, prev, pos, c :: rest =>
    match phrases.find? (phraseMatchesAt prev (c :: rest)) with
    | Option.some ph =>
      (pos, ph) ::
        findMatchesAux phrases fuel ph.getLast? (pos + ph.length) ((c :: rest).drop ph.length)
    | Option.none => findMatchesAux phrases fuel (Option.some c) (pos + 1) rest

def findMatches (phrases : List (List Char)) (text : List Char) : List (Nat × List Char) :=
  findMatchesAux phrases text.length Option.none 0 text

/-- Lookup in the insertion-ordered command dictionary
(`self.commands.get(phrase)`). -/
def lookupCmd (cmds : List (List Char × List Char)) (k : List Char) : Option (List Char) :=
  (cmds.find? (fun e => e.1 == k)).map (fun e => e.2)

/-- Python dict assignment `self.commands[k] = v`: replaces the value in
place when the key exists (keeping its insertion position), otherwise
appends the new key at the end. -/
def upsertCmd : List (List Char × List Char) → List Char → List Char →
    List (List Char × List Char)
  | [], k, v => [(k, v)]
  | e :: rest, k, v => if e.1 == k then (k, v) :: rest else e :: upsertCmd rest k v

/-- A command definition as found in `_get_default_commands` and the
config: phrase, action, optional aliases. -/
structure CommandDef where
  phrase : String
  action : String
  aliases : List String

/-- `__init__` loop: for each definition insert the lower-cased phrase and
then its lower-cased aliases, all mapping to the action. -/
def buildCommands (defs : List CommandDef) : List (List Char × List Char) :=
  defs.foldl
    (fun cs d =>
      d.aliases.foldl
        (fun cs2 a => upsertCmd cs2 (a.data.map Char.toLower) d.action.data)
        (upsertCmd cs (d.phrase.data.map Char.toLower) d.action.data))
    []

/-- The default command set of `_get_default_commands` (single-brace and
quote actions written with hex escapes). -/
def defaultCommandDefs : List CommandDef :=
  [⟨"period", ".", ["full stop", "dot"]⟩,
   ⟨"comma", ",", []⟩,
   ⟨"question mark", "?", []⟩,
   ⟨"exclamation point", "!", ["exclamation mark"]⟩,
   ⟨"colon", ":", []⟩,
   ⟨"semicolon", ";", []⟩,
   ⟨"new line", "{ENTER}", []⟩,
   ⟨"new paragraph", "{ENTER}{ENTER}", []⟩,
   ⟨"tab key", "{TAB}", ["tab"]⟩,
   ⟨"space", " ", []⟩,
   ⟨"control enter", "{CTRL+ENTER}", []⟩,
   ⟨"all caps", "{ALLCAPS_ON}", []⟩,
   ⟨"no caps", "{ALLCAPS_OFF}", []⟩,
   ⟨"caps on", "{CAPSLOCK}", []⟩,
   ⟨"caps off", "{CAPSLOCK}", []⟩,
   ⟨"open parenthesis", "(", ["left parenthesis"]⟩,
   ⟨"close parenthesis", ")", ["right parenthesis"]⟩,
   ⟨"open bracket", "[", ["left bracket"]⟩,
   ⟨"close bracket", "]", ["right bracket"]⟩,
   ⟨"open brace", "\x7b", ["left brace"]⟩,
   ⟨"close brace", "\x7d", ["right brace"]⟩,
   ⟨"quote", "\"", ["double quote"]⟩,
   ⟨"single quote", "\x27", []⟩,
   ⟨"backslash", "\\", []⟩,
   ⟨"forward slash", "/", ["slash"]⟩,
   ⟨"delete", "{DELETE}", []⟩,
   ⟨"backspace", "{BACKSPACE}", []⟩,
   ⟨"underscore", "_", []⟩,
   ⟨"hyphen", "-", ["dash"]⟩,
   ⟨"plus", "+", ["plus sign"]⟩,
   ⟨"equals", "=", ["equal sign"]⟩,
   ⟨"at sign", "@", ["at"]⟩,
   ⟨"hash", "#", ["pound", "number sign"]⟩]

/-- `capitalization_mode`: `"auto"`, `"all_caps"` or `"none"`. -/
inductive CapMode where
  | auto
  | allCaps
  | nocaps
deriving DecidableEq

/-- The `EnhancedCommandProcessor` object state: the insertion-ordered
phrase-to-action dictionary, the compiled alternation (its phrase list, in
key order; empty stands for `command_pattern = None`), and the processing
state. -/
structure Processor where
  commands : List (List Char × List Char)
  patternPhrases : List (List Char)
  capitalizationMode : CapMode
  inSentence : Bool
  smartPunctuation : Bool
deriving DecidableEq

/-- `_compile_patterns`: rebuild the alternation from the dictionary keys
in insertion order. -/
def compilePatterns (p : Processor) : Processor :=
  { p with patternPhrases := p.commands.map (fun e => e.1) }

/-- `__init__` with a given supported-commands list. -/
def initProcessor (defs : List CommandDef) : Processor :=
  compilePatterns
    { commands := buildCommands defs
      patternPhrases := []
      capitalizationMode := CapMode.auto
      inSentence := false
      smartPunctuation := true }

def defaultProcessor : Processor := initProcessor defaultCommandDefs

/-- Body of the reversed-match loop in `process`: splice one match.  The
two sentinel actions mutate `capitalization_mode` and delete their span;
any other action is spliced in and updates `in_sentence`. -/
def applyMatch (st : Processor × List Char) (m : Nat × List Char) : Processor × List Char :=
  let p := st.1
  let text := st.2
  let start := m.1
  let stop := m.1 + m.2.length
  let action := (lookupCmd p.commands m.2).getD []
  if action == "{ALLCAPS_ON}".data then
    ({ p with capitalizationMode := CapMode.allCaps }, text.take start ++ text.drop stop)
  else if action == "{ALLCAPS_OFF}".data then
    ({ p with capitalizationMode := CapMode.auto }, text.take start ++ text.drop stop)
  else
    let newText := text.take start ++ action ++ text.drop stop
    if action == ".".data || action == "!".data || action == "?".data then
      ({ p with inSentence := false }, newText)
    else if action == " ".data || action == "{ENTER}".data ||
        action == "{ENTER}{ENTER}".data || action == "{TAB}".data then
      (p, newText)
    else if p.inSentence then (p, newText)
    else ({ p with inSentence := true }, newText)

def sentenceTerm (c : Char) : Bool :=
  c == '.' || c == '!' || c == '?'

/-- `re.split(r'([.!?]\s+)', text)`: alternating content and separator
chunks; a separator is a sentence-terminal character followed by a maximal
nonempty whitespace run. -/
def capSplitAux : Nat → List Char → List Char → List (List Char)
  | 0, acc, l => [acc ++ l]
  | _ + 1, acc, [] => [acc]
  | _ + 1, acc, [c] => [acc ++ [c]]
  | fuel + 1, acc, c :: d :: rest =>
    if sentenceTerm c && pyIsSpace d then
      acc :: (c :: d :: rest.takeWhile pyIsSpace) ::
        capSplitAux fuel [] (rest.dropWhile pyIsSpace)
    else capSplitAux fuel (acc ++ [c]) (d :: rest)

def capSplit (text : List Char) : List (List Char) :=
  capSplitAux text.length [] text

/-- Per-chunk body of the capitalization loop: the source distinguishes
`i == 0` and `i > 0` but applies the same transform, capitalizing
`sentence[0]` exactly when it is alphabetic. -/
def capChunkAt (i : Nat) (s : List Char) : List Char :=
  match s with
  | [] => []
  | c :: rest =>
    if i == 0 && c.isAlpha then c.toUpper :: rest
    else if i != 0 && c.isAlpha then c.toUpper :: rest
    else c :: rest

/-- The `for i in range(0, len(sentences), 2)` rebuild: capitalize content
chunks (even indices) and re-insert separators. -/
def capJoinAux : Nat → List (List Char) → List Char
  | _, [] => []
  | i, [s] => capChunkAt i s
  | i, s :: sep :: rest => capChunkAt i s ++ sep ++ capJoinAux (i + 2) rest

def capitalizePass (text : List Char) : List Char :=
  capJoinAux 0 (capSplit text)

def punctClose (c : Char) : Bool :=
  c == '.' || c == ',' || c == ';' || c == ':' || c == '!' || c == '?' || c == ')'

def punctCore (c : Char) : Bool :=
  c == '.' || c == ',' || c == ';' || c == ':' || c == '!' || c == '?'

def openingChar (c : Char) : Bool :=
  c == '(' || c == '\x7b' || c == '[' || c == '"'

def closingChar (c : Char) : Bool :=
  c == ')' || c == '\x7d' || c == ']' || c == '"'

/-- `re.sub(r'\s+([.,;:!?)])', r'\1', text)`: drop a whitespace run that
is immediately followed by closing punctuation. -/
def spacingSub1 (pend : List Char) : List Char → List Char
  | [] => pend
  | c :: rest =>
    if pyIsSpace c then spacingSub1 (pend ++ [c]) rest
    else if punctClose c && !pend.isEmpty then c :: spacingSub1 [] rest
    else pend ++ c :: spacingSub1 [] rest

/-- `re.sub(r'([.,;:!?])([^\s)])', r'\1 \2', text)`: insert a space after
punctuation not already followed by whitespace or `)` (the scan resumes
after each two-character match, as `re.sub` does). -/
def spacingSub2 : List Char → List Char
  | [] => []
  | [c] => [c]
  | c :: d :: rest =>
    if punctCore c && !pyIsSpace d && d != ')' then c :: ' ' :: d :: spacingSub2 rest
    else c :: spacingSub2 (d :: rest)

/-- `re.sub(r'([\({\["])\s+', r'\1', text)`: drop whitespace directly
after an opening bracket or quote. -/
def spacingSub3 : Bool → List Char → List Char
  | _, [] => []
  | dropping, c :: rest =>
    if dropping && pyIsSpace c then spacingSub3 true rest
    else if openingChar c then c :: spacingSub3 true rest
    else c :: spacingSub3 false rest

/-- `re.sub(r'\s+([\)}\]"])', r'\1', text)`: drop a whitespace run that is
immediately followed by a closing bracket or quote. -/
def spacingSub4 (pend : List Char) : List Char → List Char
  | [] => pend
  | c :: rest =>
    if pyIsSpace c then spacingSub4 (pend ++ [c]) rest
    else if closingChar c && !pend.isEmpty then c :: spacingSub4 [] rest
    else pend ++ c :: spacingSub4 [] rest

/-- `re.sub(r'\s{2,}', ' ', text)`: collapse whitespace runs of length at
least two to a single space. -/
def spacingSub5 (pend : List Char) : List Char → List Char
  | [] => if pend.length ≥ 2 then [' '] else pend
  | c :: rest =>
    if pyIsSpace c then spacingSub5 (pend ++ [c]) rest
    else if pend.length ≥ 2 then ' ' :: c :: spacingSub5 [] rest
    else pend ++ c :: spacingSub5 [] rest

/-- `_apply_smart_spacing`: the five substitutions in source order. -/
def applySmartSpacing (text : List Char) : List Char :=
  spacingSub5 [] (spacingSub4 [] (spacingSub3 false (spacingSub2 (spacingSub1 [] text))))

/-- `EnhancedCommandProcessor.process`: find matches on the lower-cased
text, splice actions right to left, then the capitalization pass selected
by the (possibly updated) mode, then smart spacing. -/
def process (p : Processor) (text : List Char) : Processor × List Char :=
  if text.isEmpty || p.patternPhrases.isEmpty then (p, text)
  else
    let lowered := text.map Char.toLower
    let ms := findMatches p.patternPhrases lowered
    let st := ms.reverse.foldl applyMatch (p, text)
    let result :=
      match st.1.capitalizationMode with
      | CapMode.auto => capitalizePass st.2
      | CapMode.allCaps => st.2.map Char.toUpper
      | CapMode.nocaps => st.2
    (st.1, applySmartSpacing result)

/-- Python `del self.commands[k]`: remove the entry, preserving the order
of the remaining entries. -/
def eraseCmd : List (List Char × List Char) → List Char → List (List Char × List Char)
  | [], _ => []
  | e :: rest, k => if e.1 == k then rest else e :: eraseCmd rest k

/-- `add_command`: reject empty phrase or action; otherwise insert the
lower-cased phrase and aliases and recompile the pattern. -/
def addCommand (p : Processor) (phrase action : List Char) (aliases : List (List Char)) :
    Bool × Processor :=
  if phrase.isEmpty || action.isEmpty then (false, p)
  else
    let cmds := aliases.foldl
      (fun cs a => upsertCmd cs (a.map Char.toLower) action)
      (upsertCmd p.commands (phrase.map Char.toLower) action)
    (true, compilePatterns { p with commands := cmds })

/-- `remove_command`: reject an empty phrase; delete the lower-cased
phrase and recompile when present, otherwise report failure. -/
def removeCommand (p : Processor) (phrase : List Char) : Bool × Processor :=
  if phrase.isEmpty then (false, p)
  else if (lookupCmd p.commands (phrase.map Char.toLower)).isSome then
    (true, compilePatterns { p with commands := eraseCmd p.commands (phrase.map Char.toLower) })
  else (false, p)

/-- Modelled from the claim wording of C5 (not from the source): uppercase
the first alphabetic character of a sentence even when non-alphabetic
characters precede it.  Used only to exhibit where the source behaviour
and the claimed behaviour part ways. -/
def claimCapFirstAlpha : List Char → List Char
  | [] => []
  | c :: rest => if c.isAlpha then c.toUpper :: rest else c :: claimCapFirstAlpha rest

/-! ### Audio level meter

Embedding of `AudioLevelMeter` (`src/gui/audio_level_meter.py`): the
smoothing/peak-hold state (`_level`, `_peak_level`, `_last_peak_time`,
`_level_history`, `_history_index`) with the two mutators `_update_peak`
(timer tick) and `set_level`.  Levels and times are rationals. -/

structure MeterState where
  level : ℚ
  peakLevel : ℚ
  lastPeakTime : ℚ
  levelHistory : List ℚ
  historyIndex : Nat
deriving DecidableEq

/-- `_peak_hold_time = 1000` ms. -/
def peakHoldTime : ℚ := 1000

/-- `_peak_decay_rate = 0.001` per ms. -/
def peakDecayRate : ℚ := 1 / 1000

/-- Initial widget state: zero level and peak, ten-slot zero history. -/
def meterInit : MeterState :=
  { level := 0
    peakLevel := 0
    lastPeakTime := 0
    levelHistory := List.replicate 10 0
    historyIndex := 0 }

/-- `_update_peak`: with `elapsed = now - _last_peak_time`, decay the peak
by `rate * elapsed` (never below the current level) when the peak exceeds
the level and the hold time has elapsed; in all cases `_last_peak_time`
is then set to `now`. -/
def updatePeak (s : MeterState) (now : ℚ) : MeterState :=
  if s.peakLevel > s.level ∧ now - s.lastPeakTime > peakHoldTime then
    { s with
      peakLevel := max s.level (s.peakLevel - peakDecayRate * (now - s.lastPeakTime))
      lastPeakTime := now }
  else { s with lastPeakTime := now }

/-- `max(0.0, min(1.0, level))`. -/
def clampLevel (x : ℚ) : ℚ := max 0 (min 1 x)

/-- The history array after `self._level_history[self._history_index] = level`. -/
def histAfter (s : MeterState) (x : ℚ) : List ℚ :=
  s.levelHistory.set s.historyIndex (clampLevel x)

/-- `(self._history_index + 1) % len(self._level_history)`. -/
def idxAfter (s : MeterState) (x : ℚ) : Nat :=
  (s.historyIndex + 1) % (histAfter s x).length

/-- `np.mean(self._level_history)`. -/
def smoothedAfter (s : MeterState) (x : ℚ) : ℚ :=
  (histAfter s x).sum / ((histAfter s x).length : ℚ)

/-- `set_level`: clamp, write into the circular buffer, advance the index;
when the smoothed mean changed, publish it as the level, and when it also
exceeds the current peak, raise the peak to it and reset the peak's
last-update time. -/
def setLevel (s : MeterState) (now x : ℚ) : MeterState :=
  if smoothedAfter s x ≠ s.level then
    if smoothedAfter s x > s.peakLevel then
      { s with
        levelHistory := histAfter s x
        historyIndex := idxAfter s x
        level := smoothedAfter s x
        peakLevel := smoothedAfter s x
        lastPeakTime := now }
    else
      { s with
        levelHistory := histAfter s x
        historyIndex := idxAfter s x
        level := smoothedAfter s x }
  else
    { s with levelHistory := histAfter s x, historyIndex := idxAfter s x }

/-- An interleaving step: a peak-decay timer tick or a `set_level` call. -/
inductive MeterOp where
  | tick (now : ℚ)
  | set (now lvl : ℚ)

def meterStep (s : MeterState) : MeterOp → MeterState
  | MeterOp.tick now => updatePeak s now
  | MeterOp.set now lvl => setLevel s now lvl

def meterRun (ops : List MeterOp) : MeterState :=
  ops.foldl meterStep meterInit

/-- The peak-hold invariant: the peak never sits below the smoothed level. -/
def meterInv (s : MeterState) : Prop := s.level ≤ s.peakLevel

/-! ### Command enumeration (`get_commands`)

`get_commands` groups the insertion-ordered dictionary by action: the
first phrase seen for an action becomes the group's `phrase`, later
phrases its `aliases`; groups appear in first-occurrence order of
actions. -/

structure CommandGroup where
  action : List Char
  phrase : List Char
  aliases : List (List Char)
deriving DecidableEq

/-- Body of the `for phrase, action in self.commands.items()` loop: insert
one (phrase, action) pair into the action-keyed group list. -/
def addToGroups : List CommandGroup → (List Char × List Char) → List CommandGroup
  | [], c => [{ action := c.2, phrase := c.1, aliases := [] }]
  | g :: gs, c =>
    if g.action = c.2 then
      (if g.phrase = c.1 then g :: gs
       else { g with aliases := g.aliases ++ [c.1] } :: gs)
    else g :: addToGroups gs c

def getCommandGroups (cmds : List (List Char × List Char)) : List CommandGroup :=
  cmds.foldl addToGroups []

/-- `get_commands` on a processor. -/
def getCommands (p : Processor) : List CommandGroup :=
  getCommandGroups p.commands

/-- All phrases mapped to action `a`, in insertion order. -/
def phrasesFor (cmds : List (List Char × List Char)) (a : List Char) : List (List Char) :=
  (cmds.filter (fun e => e.2 == a)).map (fun e => e.1)

/-- The group the claim predicts for action `a`: primary phrase is the
first phrase with that action in insertion order, aliases the remaining
ones in insertion order. -/
def specGroup (cmds : List (List Char × List Char)) (a : List Char) : CommandGroup :=
  match phrasesFor cmds a with
  | [] => { action := a, phrase := [], aliases := [] }
  | ph :: ps => { action := a, phrase := ph, aliases := ps }

/-- First occurrences of a list's elements, in order. -/
def firstOccs (l : List (List Char)) : List (List Char) :=
  l.foldl (fun acc a => if a ∈ acc then acc else acc ++ [a]) []

theorem segStep_eq_speech (timeout : ℚ) (s : SegState) (now : ℚ) {b : Bool}
    (hb : b = true) :
    segStep timeout s b now =
      { hangoverCounter := timeout, lastSpeechTime := now, speechDetected := true } := by
  simp [segStep, hb]

theorem segStep_eq_end (timeout : ℚ) (s : SegState) (now : ℚ) {b : Bool}
    (hb : b = false) (hd : s.speechDetected = true)
    (hc : s.hangoverCounter - 20 ≤ 0 ∧ now - s.lastSpeechTime > timeout) :
    segStep timeout s b now =
      { s with hangoverCounter := s.hangoverCounter - 20, speechDetected := false } := by
  rw [segStep, if_neg (by simp [hb]), if_pos hd, if_pos hc]

theorem segStep_eq_hangover (timeout : ℚ) (s : SegState) (now : ℚ) {b : Bool}
    (hb : b = false) (hd : s.speechDetected = true)
    (hc : ¬ (s.hangoverCounter - 20 ≤ 0 ∧ now - s.lastSpeechTime > timeout)) :
    segStep timeout s b now = { s with hangoverCounter := s.hangoverCounter - 20 } := by
  rw [segStep, if_neg (by simp [hb]), if_pos hd, if_neg hc]

theorem segStep_eq_idle (timeout : ℚ) (s : SegState) (now : ℚ) {b : Bool}
    (hb : b = false) (hd : s.speechDetected = false) :
    segStep timeout s b now = s := by
  rw [segStep, if_neg (by simp [hb]), if_neg (by simp [hd])]

theorem segStep_counterInv (timeout : ℚ) (s : SegState) (b : Bool) (now : ℚ)
    (h : segCounterInv s) : segCounterInv (segStep timeout s b now) := by
  unfold segCounterInv at h ⊢
  by_cases hb : b = true
  · rw [segStep_eq_speech timeout s now hb]
    intro hdet
    exact absurd hdet (by simp)
  · have hb' : b = false := by simpa using hb
    by_cases hd : s.speechDetected = true
    · by_cases hc : s.hangoverCounter - 20 ≤ 0 ∧ now - s.lastSpeechTime > timeout
      · rw [segStep_eq_end timeout s now hb' hd hc]
        intro _
        exact hc.1
      · rw [segStep_eq_hangover timeout s now hb' hd hc]
        intro hdet
        exact absurd hdet (by simp [hd])
    · have hd' : s.speechDetected = false := by simpa using hd
      rw [segStep_eq_idle timeout s now hb' hd']
      exact h

theorem segRun_counterInv (timeout : ℚ) (frames : List (Bool × ℚ)) :
    segCounterInv (segRun timeout frames) := by
  unfold segRun
  have base : segCounterInv segInit := by
    unfold segCounterInv
    intro _
    simp [segInit]
  generalize segInit = s0 at base ⊢
  induction frames generalizing s0 with
  | nil => exact base
  | cons f rest ih =>
    simp only [List.foldl_cons]
    exact ih _ (segStep_counterInv timeout s0 f.1 f.2 base)

/-- C1: over every frame sequence, the segmenter leaves the active
(speech/hangover) state and reports end-of-speech only on a non-speech frame
on which both the (decremented) hangover budget is `<= 0` and the wall-clock
silence since the last speech frame exceeds `hangover_timeout_ms`; it never
reports end-of-speech while the budget is still positive, and a speech frame
always resets the budget to `hangover_timeout_ms` and updates
`last_speech_time` to the current time. -/
theorem C1_segmenter_end_of_speech (timeout : ℚ) (frames : List (Bool × ℚ))
    (isSpeech : Bool) (now : ℚ) :
    ((segRun timeout frames).speechDetected = true ∧
        (segStep timeout (segRun timeout frames) isSpeech now).speechDetected = false →
      isSpeech = false ∧
      (segStep timeout (segRun timeout frames) isSpeech now).hangoverCounter ≤ 0 ∧
      now - (segRun timeout frames).lastSpeechTime > timeout) ∧
    (segActive (segRun timeout frames) ∧
        ¬ segActive (segStep timeout (segRun timeout frames) isSpeech now) →
      isSpeech = false ∧
      (segStep timeout (segRun timeout frames) isSpeech now).hangoverCounter ≤ 0 ∧
      now - (segRun timeout frames).lastSpeechTime > timeout) ∧
    (isSpeech = true →
      (segStep timeout (segRun timeout frames) isSpeech now).hangoverCounter = timeout ∧
      (segStep timeout (segRun timeout frames) isSpeech now).lastSpeechTime = now ∧
      (segStep timeout (segRun timeout frames) isSpeech now).speechDetected = true) := by
  set s := segRun timeout frames with hs
  have hinv : segCounterInv s := by rw [hs]; exact segRun_counterInv timeout frames
  by_cases hb : isSpeech = true
  · have he := segStep_eq_speech timeout s now hb
    refine ⟨?_, ?_, ?_⟩
    · rintro ⟨_, hdet'⟩
      rw [he] at hdet'
      exact absurd hdet' (by simp)
    · rintro ⟨_, hact'⟩
      exfalso
      apply hact'
      rw [he]
      left
      rfl
    · intro _
      rw [he]
      exact ⟨rfl, rfl, rfl⟩
  · have hb' : isSpeech = false := by simpa using hb
    by_cases hd : s.speechDetected = true
    · by_cases hc : s.hangoverCounter - 20 ≤ 0 ∧ now - s.lastSpeechTime > timeout
      · have he := segStep_eq_end timeout s now hb' hd hc
        refine ⟨?_, ?_, ?_⟩
        · intro _
          rw [he]
          exact ⟨hb', hc.1, hc.2⟩
        · intro _
          rw [he]
          exact ⟨hb', hc.1, hc.2⟩
        · intro hbt
          rw [hbt] at hb'
          exact absurd hb' (by simp)
      · have he := segStep_eq_hangover timeout s now hb' hd hc
        refine ⟨?_, ?_, ?_⟩
        · rintro ⟨_, hdet'⟩
          rw [he] at hdet'
          exact absurd hdet' (by simp [hd])
        · rintro ⟨_, hact'⟩
          exfalso
          apply hact'
          rw [he]
          left
          simpa using hd
        · intro hbt
          rw [hbt] at hb'
          exact absurd hb' (by simp)
    · have hd' : s.speechDetected = false := by simpa using hd
      have he := segStep_eq_idle timeout s now hb' hd'
      refine ⟨?_, ?_, ?_⟩
      · rintro ⟨hdet, _⟩
        rw [hd'] at hdet
        exact absurd hdet (by simp)
      · rintro ⟨hact, _⟩
        exfalso
        rcases hact with h1 | h2
        · rw [hd'] at h1
          exact absurd h1 (by simp)
        · exact absurd (hinv hd') (not_le.mpr h2)
      · intro hbt
        rw [hbt] at hb'
        exact absurd hb' (by simp)

/-- Witness for C1 at a concrete run: timeout 20 ms, one speech frame at
t = 1000, then a silence frame at t = 1021 reports end-of-speech with the
budget at 0 and 21 ms of wall-clock silence. -/
theorem C1_segmenter_end_of_speech_witness :
    (false : Bool) = false ∧
    (segStep 20 (segRun 20 [(true, (1000 : ℚ))]) false 1021).hangoverCounter ≤ 0 ∧
    (1021 : ℚ) - (segRun 20 [(true, (1000 : ℚ))]).lastSpeechTime > 20 :=
  (C1_segmenter_end_of_speech 20 [(true, (1000 : ℚ))] false 1021).1
    ⟨by norm_num [segRun, segStep, segInit], by norm_num [segRun, segStep, segInit]⟩

/-- C2 counterexample: in a run whose first iteration raises while the audio
source stays active throughout (and stop is never set), the loop ends with
the exception after zero completed iterations; the claim's "the loop
continues to the next iteration; the session terminates only if the audio
source reports it is no longer active" is false on this input. -/
theorem C2_loop_error_counterexample :
    transcriptionThread
        [⟨false, true, true⟩, ⟨false, true, false⟩] =
      { completed := 0
        exit := ExitReason.raised
        recoveryCategories := [ErrCategory.transcription]
        isTranscribing := false } ∧
    ([(⟨false, true, true⟩ : IterEnv), ⟨false, true, false⟩].all
        (fun e => e.sourceActive && !e.stopSet)) = true ∧
    (transcriptionThread [⟨false, true, true⟩, ⟨false, true, false⟩]).exit ≠
      ExitReason.sourceInactive := by
  refine ⟨by decide, by decide, by decide⟩

/-- C2 amended: an exception raised inside a loop iteration is caught by the
handler wrapping the whole loop, routed through error recovery under the
`Transcription` category, and terminates the loop and the session
(`is_transcribing` becomes false); no later iteration runs.  Every iteration
before the raising one observed stop unset, an active source, and a
non-raising body, and the raising iteration itself observed stop unset and
an active source. -/
theorem C2_loop_error_terminates_session (env : List IterEnv) :
    (transcriptionThread env).isTranscribing = false ∧
    ((transcriptionThread env).exit = ExitReason.raised →
      (transcriptionThread env).recoveryCategories = [ErrCategory.transcription] ∧
      (∀ e ∈ env.take (transcriptionThread env).completed, iterNormal e = true) ∧
      (env.drop (transcriptionThread env).completed).head?.all
        (fun e => !e.stopSet && e.sourceActive && e.raises) = true) := by
  constructor
  · rfl
  · intro hraised
    have hmain : ∀ l : List IterEnv, (loopRun l).2 = ExitReason.raised →
        (∀ e ∈ l.take (loopRun l).1, iterNormal e = true) ∧
        (l.drop (loopRun l).1).head?.all
          (fun e => !e.stopSet && e.sourceActive && e.raises) = true := by
      intro l
      induction l with
      | nil => intro h; simp [loopRun] at h
      | cons e rest ih =>
        intro h
        by_cases hstop : e.stopSet = true
        · simp [loopRun, hstop] at h
        · simp only [Bool.not_eq_true] at hstop
          by_cases hact : e.sourceActive = true
          · by_cases hraise : e.raises = true
            · refine ⟨?_, ?_⟩
              · intro x hx
                simp [loopRun, hstop, hact, hraise] at hx
              · simp [loopRun, hstop, hact, hraise]
            · simp only [Bool.not_eq_true] at hraise
              have hrun : loopRun (e :: rest) = ((loopRun rest).1 + 1, (loopRun rest).2) := by
                simp [loopRun, hstop, hact, hraise]
              rw [hrun] at h ⊢
              obtain ⟨ih1, ih2⟩ := ih h
              refine ⟨?_, ?_⟩
              · intro x hx
                simp only [List.take_succ_cons, List.mem_cons] at hx
                rcases hx with rfl | hx
                · simp [iterNormal, hstop, hact, hraise]
                · exact ih1 x hx
              · simpa using ih2
          · simp only [Bool.not_eq_true] at hact
            simp [loopRun, hstop, hact] at h
    have h2 := hmain env hraised
    refine ⟨?_, h2.1, h2.2⟩
    simp only [transcriptionThread] at hraised ⊢
    simp only [hraised, if_true]

/-- Witness for C2 amended at the concrete counterexample run. -/
theorem C2_loop_error_terminates_session_witness :
    (transcriptionThread [(⟨false, true, true⟩ : IterEnv),
        ⟨false, true, false⟩]).isTranscribing = false ∧
    (transcriptionThread [(⟨false, true, true⟩ : IterEnv),
        ⟨false, true, false⟩]).recoveryCategories = [ErrCategory.transcription] :=
  ⟨(C2_loop_error_terminates_session
      [⟨false, true, true⟩, ⟨false, true, false⟩]).1,
   ((C2_loop_error_terminates_session
      [⟨false, true, true⟩, ⟨false, true, false⟩]).2 (by decide)).1⟩

/-- C3 counterexample: when the dispatch fails three times and recovery
reports success after the first two failures, `_output_text` makes three
dispatch attempts before surfacing; the claimed bound of at most 2 attempts
per text is false on this outcome sequence. -/
theorem C3_output_retry_counterexample :
    outputTextRun [⟨false, true⟩, ⟨false, true⟩, ⟨false, false⟩] =
      (3, OutputOutcome.surfaced) ∧
    ¬ (outputTextRun [⟨false, true⟩, ⟨false, true⟩, ⟨false, false⟩]).1 ≤ 2 := by
  refine ⟨by decide, by decide⟩

/-- C3 amended: `_output_text` retries recursively as long as the dispatch
fails and recovery reports success.  On a schedule whose longest prefix of
fail-then-recover outcomes has length `k`: if a further outcome exists, the
total number of dispatch attempts is `k + 1` and the call chain ends
delivered when that outcome's dispatch succeeds and surfaces an output
error when it fails without recovery; attempts are bounded by 2 only when
at most one recovery success occurs. -/
theorem C3_output_retry_unbounded (env : List DispatchEnv) :
    (env.dropWhile (fun e => !e.dispatchOk && e.recoveryOk) = [] →
      outputTextRun env =
        ((env.takeWhile (fun e => !e.dispatchOk && e.recoveryOk)).length,
          OutputOutcome.envExhausted)) ∧
    (∀ e rest,
      env.dropWhile (fun e => !e.dispatchOk && e.recoveryOk) = e :: rest →
      outputTextRun env =
        ((env.takeWhile (fun e => !e.dispatchOk && e.recoveryOk)).length + 1,
          if e.dispatchOk then OutputOutcome.delivered
          else OutputOutcome.surfaced)) := by
  induction env with
  | nil =>
    refine ⟨fun _ => by simp [outputTextRun], ?_⟩
    intro e rest h
    simp [List.dropWhile] at h
  | cons x xs ih =>
    by_cases hx : (!x.dispatchOk && x.recoveryOk) = true
    · have hdrop : (x :: xs).dropWhile (fun e => !e.dispatchOk && e.recoveryOk) =
          xs.dropWhile (fun e => !e.dispatchOk && e.recoveryOk) := by
        simp [List.dropWhile_cons, hx]
      have htake : (x :: xs).takeWhile (fun e => !e.dispatchOk && e.recoveryOk) =
          x :: xs.takeWhile (fun e => !e.dispatchOk && e.recoveryOk) := by
        simp [List.takeWhile_cons, hx]
      have hpair : x.dispatchOk = false ∧ x.recoveryOk = true := by
        constructor
        · by_contra hcon
          have : x.dispatchOk = true := by simpa using hcon
          rw [this] at hx
          simp at hx
        · by_contra hcon
          have : x.recoveryOk = false := by simpa using hcon
          rw [this] at hx
          simp at hx
      have hrun : outputTextRun (x :: xs) =
          ((outputTextRun xs).1 + 1, (outputTextRun xs).2) := by
        simp [outputTextRun, hpair.1, hpair.2]
      refine ⟨?_, ?_⟩
      · intro h
        rw [hdrop] at h
        rw [hrun, ih.1 h, htake]
        simp
      · intro e rest h
        rw [hdrop] at h
        rw [hrun, ih.2 e rest h, htake]
        simp
    · have hx' : (!x.dispatchOk && x.recoveryOk) = false := by simpa using hx
      have hdrop : (x :: xs).dropWhile (fun e => !e.dispatchOk && e.recoveryOk) =
          x :: xs := by
        simp [List.dropWhile_cons, hx']
      have htake : (x :: xs).takeWhile (fun e => !e.dispatchOk && e.recoveryOk) =
          [] := by
        simp [List.takeWhile_cons, hx']
      refine ⟨?_, ?_⟩
      · intro h
        rw [hdrop] at h
        exact absurd h (by simp)
      · intro e rest h
        rw [hdrop] at h
        injection h with h1 h2
        subst h1
        subst h2
        rw [htake]
        by_cases hd : x.dispatchOk = true
        · simp [outputTextRun, hd]
        · have hd' : x.dispatchOk = false := by simpa using hd
          have hr : x.recoveryOk = false := by
            by_contra hr
            have hr' : x.recoveryOk = true := by simpa using hr
            rw [hd', hr'] at hx'
            simp at hx'
          simp [outputTextRun, hd', hr]

/-- Witness for C3 amended on the counterexample schedule: the prefix of
fail-then-recover outcomes has length 2, so three attempts are made and the
error is surfaced. -/
theorem C3_output_retry_unbounded_witness :
    outputTextRun [⟨false, true⟩, ⟨false, true⟩, ⟨false, false⟩] =
      (([(⟨false, true⟩ : DispatchEnv), ⟨false, true⟩,
          ⟨false, false⟩].takeWhile (fun e => !e.dispatchOk && e.recoveryOk)).length + 1,
        if (⟨false, false⟩ : DispatchEnv).dispatchOk then OutputOutcome.delivered
        else OutputOutcome.surfaced) :=
  (C3_output_retry_unbounded
      [⟨false, true⟩, ⟨false, true⟩, ⟨false, false⟩]).2
    ⟨false, false⟩ [] (by decide)

/-- C4 counterexample: with the default command set in mode Auto the
pipeline does not return the claimed string: the space before `{ENTER}`
and the space after it survive the spacing pass (which never deletes
whitespace before an opening brace or after a closing one), and `this`
after `{ENTER}{ENTER}` is not capitalized because its sentence chunk
begins with the non-alphabetic character of the brace. -/
theorem C4_pipeline_example_counterexample :
    (process defaultProcessor
        "hello comma how are you question mark new paragraph this is great exclamation point".data).2 ≠
      "Hello, how are you?{ENTER}{ENTER}This is great!".data := by
  decide

/-- C4 amended: the pipeline output for the example input, as the code
computes it. -/
theorem C4_pipeline_example_actual :
    (process defaultProcessor
        "hello comma how are you question mark new paragraph this is great exclamation point".data).2 =
      "Hello, how are you? {ENTER}{ENTER} this is great!".data := by
  decide

/-- C5 counterexample: on a sentence that begins with a non-alphabetic
character the capitalization pass leaves the text unchanged, whereas the
claim requires the first alphabetic character to be uppercased; observed
on the input `"(ab"` through the full pipeline. -/
theorem C5_capitalize_counterexample :
    capChunkAt 0 "(ab".data = "(ab".data ∧
    claimCapFirstAlpha "(ab".data = "(Ab".data ∧
    (process defaultProcessor "(ab".data).2 = "(ab".data ∧
    "(ab".data ≠ "(Ab".data := by
  refine ⟨by decide, by decide, by decide, by decide⟩

/-- C5 amended: in mode Auto the capitalization pass uppercases the first
character of a sentence exactly when that character is alphabetic; a
sentence whose first character is not alphabetic passes through
unchanged (the pass never scans ahead to a later alphabetic character). -/
theorem C5_capitalize_first_char_only (i : Nat) (c : Char) (rest : List Char) :
    (c.isAlpha = true → capChunkAt i (c :: rest) = c.toUpper :: rest) ∧
    (c.isAlpha = false → capChunkAt i (c :: rest) = c :: rest) := by
  constructor
  · intro ha
    by_cases hi : i = 0
    · simp [capChunkAt, hi, ha]
    · simp [capChunkAt, hi, ha]
  · intro ha
    by_cases hi : i = 0
    · simp [capChunkAt, hi, ha]
    · simp [capChunkAt, hi, ha]

/-- Witness for C5 amended at the counterexample sentence. -/
theorem C5_capitalize_first_char_only_witness :
    capChunkAt 0 ('(' :: "ab".data) = '(' :: "ab".data :=
  (C5_capitalize_first_char_only 0 '(' "ab".data).2 (by decide)

/-- C6 counterexample: after adding `"smiley face" -> " :) "` the pipeline
does not return the claimed `"hello :) goodbye"`: the first letter is
capitalized by the Auto mode, and the spacing pass removes the whitespace
run before `:` and collapses the run before `goodbye`. -/
theorem C6_custom_command_counterexample :
    (process
        (addCommand defaultProcessor "smiley face".data " :) ".data []).2
        "hello smiley face goodbye".data).2 ≠
      "hello :) goodbye".data := by
  decide

/-- C6 amended: the pipeline output for the custom-command example, as the
code computes it. -/
theorem C6_custom_command_actual :
    (process
        (addCommand defaultProcessor "smiley face".data " :) ".data []).2
        "hello smiley face goodbye".data).2 =
      "Hello:) goodbye".data := by
  decide

/-- C7 counterexample: the pipeline output `process("ab.cd") = "Ab. cd"`
contains no command phrase, yet re-processing it changes the text: the
spacing pass of the first run inserted a space after the period, creating
a sentence boundary that the second run's capitalization pass uppercases. -/
theorem C7_idempotence_counterexample :
    findMatches (process defaultProcessor "ab.cd".data).1.patternPhrases
        ((process defaultProcessor "ab.cd".data).2.map Char.toLower) = [] ∧
    (process (process defaultProcessor "ab.cd".data).1
        (process defaultProcessor "ab.cd".data).2).2 ≠
      (process defaultProcessor "ab.cd".data).2 := by
  refine ⟨by decide, by decide⟩

/-- C7 amended: when the matcher finds no command phrase in the lower-cased
text, the substitution pass is a no-op — `process` leaves the state
unchanged and only applies the capitalization and spacing passes; the
combined passes are nevertheless not idempotent on command-free processed
output, because the spacing pass can insert a space after a
sentence-terminal character and thereby create a sentence boundary that a
second run capitalizes: `process("ab.cd")` yields `"Ab. cd"`, and
re-processing that output yields `"Ab. Cd"`. -/
theorem C7_pipeline_not_idempotent (p : Processor) (text : List Char)
    (hmode : p.capitalizationMode = CapMode.auto)
    (hpat : p.patternPhrases.isEmpty = false)
    (hnone : findMatches p.patternPhrases (text.map Char.toLower) = []) :
    process p text = (p, applySmartSpacing (capitalizePass text)) ∧
    (process defaultProcessor "ab.cd".data).2 = "Ab. cd".data ∧
    (process (process defaultProcessor "ab.cd".data).1
        (process defaultProcessor "ab.cd".data).2).2 = "Ab. Cd".data := by
  refine ⟨?_, by decide, by decide⟩
  by_cases htext : text.isEmpty = true
  · have htext' : text = [] := by
      cases text with
      | nil => rfl
      | cons x xs => simp at htext
    subst htext'
    simp only [process, List.isEmpty_nil, Bool.true_or, if_pos]
    have : applySmartSpacing (capitalizePass []) = [] := by decide
    rw [this]
  · have htext' : text.isEmpty = false := by simpa using htext
    unfold process
    rw [if_neg (by simp [htext', hpat])]
    simp only [hnone, List.reverse_nil, List.foldl_nil, hmode]

/-- Witness for C7 amended: on the command-free input `"xy"` with the
default processor the run reduces to capitalization plus spacing. -/
theorem C7_pipeline_not_idempotent_witness :
    process defaultProcessor "xy".data =
      (defaultProcessor, applySmartSpacing (capitalizePass "xy".data)) :=
  (C7_pipeline_not_idempotent defaultProcessor "xy".data (by decide) (by decide)
      (by decide)).1

theorem updatePeak_inv (s : MeterState) (now : ℚ) (h : meterInv s) :
    meterInv (updatePeak s now) := by
  unfold meterInv updatePeak at *
  by_cases hc : s.peakLevel > s.level ∧ now - s.lastPeakTime > peakHoldTime
  · rw [if_pos hc]
    exact le_max_left _ _
  · rw [if_neg hc]
    exact h

theorem setLevel_inv (s : MeterState) (now x : ℚ) (h : meterInv s) :
    meterInv (setLevel s now x) := by
  unfold meterInv setLevel at *
  by_cases h1 : smoothedAfter s x ≠ s.level
  · rw [if_pos h1]
    by_cases h2 : smoothedAfter s x > s.peakLevel
    · rw [if_pos h2]
    · rw [if_neg h2]
      exact not_lt.mp h2
  · rw [if_neg h1]
    exact h

theorem meterRun_inv (ops : List MeterOp) : meterInv (meterRun ops) := by
  unfold meterRun
  have base : meterInv meterInit := le_refl 0
  generalize meterInit = s0 at base ⊢
  induction ops generalizing s0 with
  | nil => exact base
  | cons op rest ih =>
    simp only [List.foldl_cons]
    apply ih
    cases op with
    | tick now => exact updatePeak_inv s0 now base
    | set now lvl => exact setLevel_inv s0 now lvl base

theorem updatePeak_decrease_only (s : MeterState) (now : ℚ)
    (h : (updatePeak s now).peakLevel < s.peakLevel) :
    now - s.lastPeakTime > peakHoldTime ∧ s.peakLevel > s.level := by
  by_cases hc : s.peakLevel > s.level ∧ now - s.lastPeakTime > peakHoldTime
  · exact ⟨hc.2, hc.1⟩
  · exfalso
    unfold updatePeak at h
    rw [if_neg hc] at h
    exact lt_irrefl _ h

theorem setLevel_peak_mono (s : MeterState) (now x : ℚ) :
    s.peakLevel ≤ (setLevel s now x).peakLevel := by
  unfold setLevel
  by_cases h1 : smoothedAfter s x ≠ s.level
  · rw [if_pos h1]
    by_cases h2 : smoothedAfter s x > s.peakLevel
    · rw [if_pos h2]
      exact le_of_lt h2
    · rw [if_neg h2]
  · rw [if_neg h1]

/-- C8: over every interleaving of `set_level` calls and peak-update ticks
the peak stays at or above the current smoothed level; on a tick the peak
strictly decreases only when the hold duration has elapsed since the
peak's last-update time (and the peak exceeds the level), and the decayed
peak never falls below the current level; `set_level` never lowers the
peak. -/
theorem C8_peak_hold (ops : List MeterOp) (s : MeterState) (now x : ℚ) :
    meterInv (meterRun ops) ∧
    (meterInv s → meterInv (updatePeak s now)) ∧
    ((updatePeak s now).peakLevel < s.peakLevel →
      now - s.lastPeakTime > peakHoldTime ∧ s.peakLevel > s.level) ∧
    s.peakLevel ≤ (setLevel s now x).peakLevel := by
  exact ⟨meterRun_inv ops, updatePeak_inv s now,
    updatePeak_decrease_only s now, setLevel_peak_mono s now x⟩

/-- Witness for C8 at a concrete state: one `set_level(1)` then a tick. -/
theorem C8_peak_hold_witness :
    meterInv (meterRun [MeterOp.set 5 1, MeterOp.tick 2000]) ∧
    meterInv (updatePeak meterInit 2000) :=
  ⟨(C8_peak_hold [MeterOp.set 5 1, MeterOp.tick 2000] meterInit 2000 0).1,
   (C8_peak_hold [] meterInit 2000 0).2.1 (le_refl 0)⟩

theorem mem_foldl_firstOccs (l acc : List (List Char)) (x : List Char) :
    x ∈ l.foldl (fun acc a => if a ∈ acc then acc else acc ++ [a]) acc ↔
      x ∈ acc ∨ x ∈ l := by
  induction l generalizing acc with
  | nil => simp
  | cons b t ih =>
    simp only [List.foldl_cons]
    rw [ih]
    by_cases hb : b ∈ acc
    · rw [if_pos hb]
      constructor
      · rintro (h | h)
        · exact Or.inl h
        · exact Or.inr (List.mem_cons_of_mem b h)
      · rintro (h | h)
        · exact Or.inl h
        · rcases List.mem_cons.mp h with rfl | h
          · exact Or.inl hb
          · exact Or.inr h
    · rw [if_neg hb]
      simp only [List.mem_append, List.mem_singleton, List.mem_cons]
      tauto

theorem mem_firstOccs (l : List (List Char)) (x : List Char) :
    x ∈ firstOccs l ↔ x ∈ l := by
  unfold firstOccs
  rw [mem_foldl_firstOccs]
  simp

theorem nodup_foldl_firstOccs (l acc : List (List Char)) (h : acc.Nodup) :
    (l.foldl (fun acc a => if a ∈ acc then acc else acc ++ [a]) acc).Nodup := by
  induction l generalizing acc with
  | nil => exact h
  | cons b t ih =>
    simp only [List.foldl_cons]
    apply ih
    by_cases hb : b ∈ acc
    · rw [if_pos hb]
      exact h
    · rw [if_neg hb]
      refine List.Nodup.append h (List.nodup_singleton b) ?_
      intro x hx hx2
      rcases List.mem_singleton.mp hx2 with rfl
      exact hb hx

theorem firstOccs_nodup (l : List (List Char)) : (firstOccs l).Nodup :=
  nodup_foldl_firstOccs l [] List.nodup_nil

theorem firstOccs_append (l : List (List Char)) (a : List Char) :
    firstOccs (l ++ [a]) =
      if a ∈ firstOccs l then firstOccs l else firstOccs l ++ [a] := by
  unfold firstOccs
  rw [List.foldl_append]
  simp

theorem phrasesFor_append (l : List (List Char × List Char))
    (c : List Char × List Char) (a : List Char) :
    phrasesFor (l ++ [c]) a =
      phrasesFor l a ++ (if c.2 = a then [c.1] else []) := by
  unfold phrasesFor
  rw [List.filter_append]
  by_cases h : c.2 = a
  · simp [List.filter_cons, h]
  · have h' : (c.2 == a) = false := by simpa using h
    simp [List.filter_cons, h', h]

theorem specGroup_action (l : List (List Char × List Char)) (a : List Char) :
    (specGroup l a).action = a := by
  unfold specGroup
  cases phrasesFor l a with
  | nil => rfl
  | cons ph ps => rfl

theorem specGroup_append_ne (l : List (List Char × List Char))
    (c : List Char × List Char) (a : List Char) (h : ¬ c.2 = a) :
    specGroup (l ++ [c]) a = specGroup l a := by
  unfold specGroup
  rw [phrasesFor_append, if_neg h, List.append_nil]

theorem phrasesFor_ne_nil (l : List (List Char × List Char)) (a : List Char)
    (h : a ∈ l.map (fun e => e.2)) : phrasesFor l a ≠ [] := by
  obtain ⟨e, he, hea⟩ := List.mem_map.mp h
  intro hcon
  unfold phrasesFor at hcon
  have hfil : l.filter (fun x => x.2 == a) = [] := by
    cases hfe : l.filter (fun x => x.2 == a) with
    | nil => rfl
    | cons y ys =>
      rw [hfe] at hcon
      simp at hcon
  have hall := List.filter_eq_nil_iff.mp hfil e he
  simp [hea] at hall

theorem phrasesFor_eq_nil (l : List (List Char × List Char)) (a : List Char)
    (h : a ∉ l.map (fun e => e.2)) : phrasesFor l a = [] := by
  unfold phrasesFor
  have hfil : l.filter (fun x => x.2 == a) = [] := by
    rw [List.filter_eq_nil_iff]
    intro x hx hcon
    exact h (List.mem_map.mpr ⟨x, hx, by simpa using hcon⟩)
  rw [hfil]
  rfl

theorem specGroup_phrase_mem (l : List (List Char × List Char)) (a : List Char)
    (h : a ∈ l.map (fun e => e.2)) :
    (specGroup l a).phrase ∈ l.map (fun e => e.1) := by
  unfold specGroup
  cases hp : phrasesFor l a with
  | nil => exact absurd hp (phrasesFor_ne_nil l a h)
  | cons ph ps =>
    have hmem : ph ∈ phrasesFor l a := by
      rw [hp]
      exact List.mem_cons_self ph ps
    unfold phrasesFor at hmem
    obtain ⟨e, he, hee⟩ := List.mem_map.mp hmem
    exact List.mem_map.mpr ⟨e, (List.mem_filter.mp he).1, hee⟩

theorem specGroup_append_self (l : List (List Char × List Char))
    (c : List Char × List Char) (h : c.2 ∈ l.map (fun e => e.2)) :
    specGroup (l ++ [c]) c.2 =
      { specGroup l c.2 with aliases := (specGroup l c.2).aliases ++ [c.1] } := by
  unfold specGroup
  rw [phrasesFor_append, if_pos rfl]
  cases hp : phrasesFor l c.2 with
  | nil => exact absurd hp (phrasesFor_ne_nil l c.2 h)
  | cons ph ps => simp

theorem specGroup_append_new (l : List (List Char × List Char))
    (c : List Char × List Char) (h : c.2 ∉ l.map (fun e => e.2)) :
    specGroup (l ++ [c]) c.2 = { action := c.2, phrase := c.1, aliases := [] } := by
  unfold specGroup
  rw [phrasesFor_append, if_pos rfl, phrasesFor_eq_nil l c.2 h]
  simp

theorem addToGroups_update (l : List (List Char × List Char))
    (c : List Char × List Char) (occs : List (List Char))
    (hnd : occs.Nodup) (hmem : c.2 ∈ occs)
    (hall : ∀ o ∈ occs, o ∈ l.map (fun e => e.2))
    (hc1 : c.1 ∉ l.map (fun e => e.1)) :
    addToGroups (occs.map (specGroup l)) c = occs.map (specGroup (l ++ [c])) := by
  induction occs with
  | nil => simp at hmem
  | cons o os ih =>
    simp only [List.map_cons, addToGroups]
    by_cases ho : (specGroup l o).action = c.2
    · have hoeq : o = c.2 := by
        rw [specGroup_action] at ho
        exact ho
      rw [if_pos ho]
      have hphmem : (specGroup l o).phrase ∈ l.map (fun e => e.1) :=
        specGroup_phrase_mem l o (hall o (List.mem_cons_self o os))
      have hne : ¬ (specGroup l o).phrase = c.1 := fun hcon => hc1 (hcon ▸ hphmem)
      rw [if_neg hne]
      have hc2mem : c.2 ∈ l.map (fun e => e.2) := by
        rw [← hoeq]
        exact hall o (List.mem_cons_self o os)
      have hself := specGroup_append_self l c hc2mem
      congr 1
      · rw [hoeq, hself]
      · apply List.map_congr_left
        intro y hy
        have hyne : ¬ c.2 = y := by
          intro hcon
          apply (List.nodup_cons.mp hnd).1
          rw [hoeq, hcon]
          exact hy
        exact (specGroup_append_ne l c y hyne).symm
    · rw [if_neg ho]
      rw [specGroup_action] at ho
      have hoc : ¬ c.2 = o := fun hcon => ho hcon.symm
      have hmem' : c.2 ∈ os := by
        rcases List.mem_cons.mp hmem with hcon | h2
        · exact absurd hcon.symm ho
        · exact h2
      rw [ih (List.nodup_cons.mp hnd).2 hmem'
        (fun x hx => hall x (List.mem_cons_of_mem o hx))]
      rw [specGroup_append_ne l c o hoc]

theorem addToGroups_new (l : List (List Char × List Char))
    (c : List Char × List Char) (occs : List (List Char))
    (hnomem : c.2 ∉ occs) (hnotin : c.2 ∉ l.map (fun e => e.2)) :
    addToGroups (occs.map (specGroup l)) c =
      occs.map (specGroup (l ++ [c])) ++ [specGroup (l ++ [c]) c.2] := by
  induction occs with
  | nil =>
    simp only [List.map_nil, List.nil_append, addToGroups]
    rw [specGroup_append_new l c hnotin]
  | cons o os ih =>
    simp only [List.map_cons, addToGroups]
    have hoc : ¬ o = c.2 := fun hcon => hnomem (hcon ▸ List.mem_cons_self o os)
    have ho : ¬ (specGroup l o).action = c.2 := by
      rw [specGroup_action]
      exact hoc
    rw [if_neg ho]
    rw [ih (fun hcon => hnomem (List.mem_cons_of_mem o hcon))]
    rw [specGroup_append_ne l c o (fun hcon => hoc hcon.symm)]
    simp

/-- C9: for every command dictionary (an insertion-ordered association
list with distinct phrases), `get_commands` produces exactly one group per
distinct action, in first-occurrence order of the actions, whose primary
phrase is the first phrase mapped to that action in insertion order and
whose aliases are the remaining such phrases in insertion order; the
result is a function of the dictionary alone, hence deterministic. -/
theorem C9_get_commands_grouping (cmds : List (List Char × List Char))
    (h : (cmds.map (fun e => e.1)).Nodup) :
    getCommandGroups cmds =
      (firstOccs (cmds.map (fun e => e.2))).map (specGroup cmds) := by
  induction cmds using List.reverseRecOn with
  | nil => rfl
  | append_singleton l c ih =>
    rw [List.map_append] at h
    have hl : (l.map (fun e => e.1)).Nodup :=
      (List.sublist_append_left _ _).nodup h
    have hc1 : c.1 ∉ l.map (fun e => e.1) := by
      have h' : (l.map (fun e => e.1) ++ [c.1]).Nodup := by simpa using h
      have hnd : (c.1 :: l.map (fun e => e.1)).Nodup :=
        (List.perm_append_singleton c.1 (l.map (fun e => e.1))).nodup_iff.mp h'
      exact (List.nodup_cons.mp hnd).1
    unfold getCommandGroups
    rw [List.foldl_append]
    have hfold : l.foldl addToGroups [] = getCommandGroups l := rfl
    rw [List.foldl_cons, List.foldl_nil, hfold, ih hl]
    simp only [List.map_append, List.map_cons, List.map_nil]
    rw [firstOccs_append]
    by_cases hmem : c.2 ∈ firstOccs (l.map (fun e => e.2))
    · rw [if_pos hmem]
      exact addToGroups_update l c _ (firstOccs_nodup _)
        hmem (fun o ho => (mem_firstOccs _ o).mp ho) hc1
    · rw [if_neg hmem]
      rw [List.map_append, List.map_cons, List.map_nil]
      exact addToGroups_new l c _ hmem
        (fun hcon => hmem ((mem_firstOccs _ c.2).mpr hcon))

/-- Witness for C9 on a concrete aliased dictionary: two phrases map to
action `X` (grouped with the first as primary), one to `Y`. -/
theorem C9_get_commands_grouping_witness :
    getCommandGroups [("a".data, "X".data), ("b".data, "X".data), ("c".data, "Y".data)] =
      (firstOccs ([("a".data, "X".data), ("b".data, "X".data),
          ("c".data, "Y".data)].map (fun e => e.2))).map
        (specGroup [("a".data, "X".data), ("b".data, "X".data), ("c".data, "Y".data)]) :=
  C9_get_commands_grouping
    [("a".data, "X".data), ("b".data, "X".data), ("c".data, "Y".data)] (by decide)

/-- C10: `add_command` with an empty phrase or empty action returns False
and leaves the processor (dictionary and compiled matcher) unchanged;
`remove_command` with an empty phrase or an absent phrase returns False
and leaves the processor unchanged; whenever either call returns False the
processor is unchanged, so the dictionary and matcher are rebuilt only on
calls that return True. -/
theorem C10_mutation_guards (p : Processor) (phrase action : List Char)
    (aliases : List (List Char)) (ph2 : List Char) :
    ((phrase.isEmpty = true ∨ action.isEmpty = true) →
      addCommand p phrase action aliases = (false, p)) ∧
    ((addCommand p phrase action aliases).1 = false →
      (addCommand p phrase action aliases).2 = p) ∧
    ((ph2.isEmpty = true ∨ lookupCmd p.commands (ph2.map Char.toLower) = Option.none) →
      removeCommand p ph2 = (false, p)) ∧
    ((removeCommand p ph2).1 = false → (removeCommand p ph2).2 = p) := by
  refine ⟨?_, ?_, ?_, ?_⟩
  · intro h
    have hg : (phrase.isEmpty || action.isEmpty) = true := by
      rcases h with h | h
      · simp [h]
      · simp [h]
    unfold addCommand
    rw [if_pos hg]
  · intro h1
    by_cases hg : (phrase.isEmpty || action.isEmpty) = true
    · unfold addCommand
      rw [if_pos hg]
    · have hg' : (phrase.isEmpty || action.isEmpty) = false := by simpa using hg
      unfold addCommand at h1
      rw [if_neg (by simp [hg'])] at h1
      simp at h1
  · intro h
    rcases h with h | h
    · unfold removeCommand
      rw [if_pos h]
    · unfold removeCommand
      by_cases he : ph2.isEmpty = true
      · rw [if_pos he]
      · rw [if_neg he, if_neg (by simp [h])]
  · intro h1
    unfold removeCommand at h1 ⊢
    by_cases he : ph2.isEmpty = true
    · rw [if_pos he] at h1 ⊢
    · rw [if_neg he] at h1 ⊢
      by_cases hs : (lookupCmd p.commands (ph2.map Char.toLower)).isSome = true
      · rw [if_pos hs] at h1
        simp at h1
      · rw [if_neg hs] at h1 ⊢

/-- Witness for C10: rejected mutations on the default processor leave it
untouched. -/
theorem C10_mutation_guards_witness :
    addCommand defaultProcessor [] "x".data [] = (false, defaultProcessor) ∧
    removeCommand defaultProcessor "zzz".data = (false, defaultProcessor) :=
  ⟨(C10_mutation_guards defaultProcessor [] "x".data [] "zzz".data).1
      (Or.inl (by decide)),
   (C10_mutation_guards defaultProcessor [] "x".data [] "zzz".data).2.2.1
      (Or.inr (by decide))⟩

end VoiceTranscription
